import Mathlib

/-!
Shallow embedding of the typing-exam backend actor (`src/backend/main.mo`).

Motoko `Text` is modelled as a list of Unicode code points (`List Nat`),
`Principal` as an opaque `Nat`, `Time.Time` as `Int` (nanoseconds).
The actor's four `Map` stores are modelled as association lists with
insert-or-replace semantics; each public shared function becomes a Lean
function from its arguments and the pre-state to `Except String (result ×
post-state)`, where `Except.error msg` models `Runtime.trap(msg)` (a trap
rolls the canister state back, see `postState`).  `Time.now()` is constant
within one message execution, so each call that reads the clock takes one
`now : Int` parameter.
-/

abbrev MoText := List Nat
abbrev MoPrincipal := Nat
abbrev MoTime := Int

/-- Convert a Lean string literal to the code-point list model of `Text`. -/
def txt (s : String) : MoText := s.data.map Char.toNat

/-- One character step of `hashPassword` (main.mo lines 61-71):
`(code + 3) % 126`, clamped up to 33. -/
def hashChar (c : Nat) : Nat :=
  let newCode := (c + 3) % 126
  if newCode < 33 then 33 else newCode

/-- `hashPassword` (main.mo lines 61-71): character-wise substitution. -/
def hashPassword (password : MoText) : MoText :=
  password.map hashChar

/-- Fuel-based recursion for decimal rendering (structural, so that it
reduces under kernel evaluation); `fuel = n + 1` always suffices since the
argument strictly decreases. -/
def natTextAux (fuel n : Nat) : List Nat :=
  match fuel with
  | 0 => []
  | fuel + 1 =>
    if n < 10 then [48 + n] else natTextAux fuel (n / 10) ++ [48 + n % 10]

/-- Decimal digits (as code points, most significant first) of a `Nat`,
as produced by Motoko `Nat.toText`. -/
def natText (n : Nat) : List Nat :=
  natTextAux (n + 1) n

/-- Value of a digit string (inverse of `natText`). -/
def natVal (l : List Nat) : Nat :=
  l.foldl (fun a d => a * 10 + (d - 48)) 0

/-- Motoko `Int.toText`: optional minus sign (code 45) then decimal digits. -/
def intToText (i : Int) : MoText :=
  if i < 0 then 45 :: natText i.natAbs else natText i.toNat

/-- Three-way comparison on code points (Motoko `Char.compare`). -/
def ordC (a b : Nat) : Ordering :=
  if a < b then .lt else if b < a then .gt else .eq

/-- Motoko `Text.compare`: lexicographic comparison of code-point lists. -/
def textCompare : MoText → MoText → Ordering
  | [], [] => .eq
  | [], _ :: _ => .lt
  | _ :: _, [] => .gt
  | a :: as, b :: bs =>
    match ordC a b with
    | .eq => textCompare as bs
    | o => o

/-- Motoko `Int.compare`. -/
def intCompare (a b : Int) : Ordering :=
  if a < b then .lt else if b < a then .gt else .eq

/-! ### Association-list model of `mo:core/Map` -/

/-- `Map.get`. -/
def mapGet {α β : Type} [DecidableEq α] : List (α × β) → α → Option β
  | [], _ => none
  | (k', v) :: rest, k => if k = k' then some v else mapGet rest k

/-- `Map.add`: insert-or-replace. -/
def mapAdd {α β : Type} [DecidableEq α] : List (α × β) → α → β → List (α × β)
  | [], k, v => [(k, v)]
  | (k', v') :: rest, k, v =>
    if k = k' then (k, v) :: rest else (k', v') :: mapAdd rest k v

/-- `Map.remove`. -/
def mapRemove {α β : Type} [DecidableEq α] : List (α × β) → α → List (α × β)
  | [], _ => []
  | (k', v') :: rest, k =>
    if k = k' then rest else (k', v') :: mapRemove rest k

/-- `Map.containsKey`. -/
def mapContains {α β : Type} [DecidableEq α] (m : List (α × β)) (k : α) : Bool :=
  (mapGet m k).isSome

/-- `Map.values` (as a list). -/
def mapValues {α β : Type} (m : List (α × β)) : List β :=
  m.map (·.2)

/-- `Map.size`. -/
def mapSize {α β : Type} (m : List (α × β)) : Nat :=
  m.length

/-! ### Data model (main.mo lines 16-51) -/

structure UserProfile where
  name : MoText
  mobile : MoText
  passwordHash : MoText
  sessionId : MoText
  deriving DecidableEq

structure Passage where
  id : MoText
  title : MoText
  content : MoText
  timeMinutes : Nat
  deriving DecidableEq

structure TestResult where
  id : MoText
  userName : MoText
  userMobile : MoText
  passageTitle : MoText
  wpm : Nat
  accuracy : Nat
  mistakes : Nat
  timestamp : MoTime
  deriving DecidableEq

/-- `module Passage { compare }` (main.mo lines 41-45): compare by id. -/
def passageCompare (p1 p2 : Passage) : Ordering :=
  textCompare p1.id p2.id

/-- `module TestResult { compareByTime }` (main.mo lines 47-51). -/
def compareByTime (r1 r2 : TestResult) : Ordering :=
  intCompare r1.timestamp r2.timestamp

/-! ### Access control

The `authorization/access-control` module is imported by main.mo but its
source is not part of the repository snapshot, so it is modelled from the
spec (§4.1 AccessControlStore). -/

inductive Role
  | admin
  | user
  | guest
  deriving DecidableEq

abbrev ACState := List (MoPrincipal × Role)

/-- Modelled from the spec: `hasPermission(identity, capability)` of the
missing `authorization/access-control` module — `admin` capability requires
an explicit admin assignment; `user` capability is satisfied by either a
`user` or an `admin` assignment; `guest` is the default for unassigned
identities and grants no protected capability. -/
def hasPermission (ac : ACState) (p : MoPrincipal) (c : Role) : Bool :=
  match c with
  | .admin => mapGet ac p == some .admin
  | .user => mapGet ac p == some .admin || mapGet ac p == some .user
  | .guest => true

/-- Modelled from the spec: `isAdmin(identity)` of the missing
`authorization/access-control` module — true iff the assignment is exactly
`admin`. -/
def isAdmin (ac : ACState) (p : MoPrincipal) : Bool :=
  mapGet ac p == some .admin

/-- Modelled from the spec: `assignRole(grantor, target, role)` of the
missing `authorization/access-control` module — writes/overwrites the
assignment for `target`; the store itself does not re-check permission. -/
def assignRole (ac : ACState) (_grantor target : MoPrincipal) (role : Role) : ACState :=
  mapAdd ac target role

/-! ### Actor state (main.mo lines 53-59) -/

structure State where
  userProfiles : List (MoPrincipal × UserProfile)
  mobileToUser : List (MoText × MoPrincipal)
  passages : List (MoText × Passage)
  testResults : List (MoText × TestResult)
  accessControlState : ACState
  deriving DecidableEq

def initState : State :=
  ⟨[], [], [], [], []⟩

/-- Post-state of a call: a trap (`Except.error`) rolls the canister back
to the pre-state. -/
def postState {α : Type} (r : Except String (α × State)) (st : State) : State :=
  match r with
  | .ok (_, s) => s
  | .error _ => st

/-! ### Public shared functions -/

/-- `registerUser` (main.mo lines 96-115). -/
def registerUser (caller : MoPrincipal) (name mobile password : MoText)
    (st : State) : Except String (MoText × State) :=
  if mapContains st.mobileToUser mobile then
    .error ("Mobile number already registered")
  else
    let userProfile : UserProfile :=
      ⟨name, mobile, hashPassword password, []⟩
    .ok (txt ("OK"),
      { st with
        userProfiles := mapAdd st.userProfiles caller userProfile
        mobileToUser := mapAdd st.mobileToUser mobile caller
        accessControlState := assignRole st.accessControlState caller caller .user })

structure LoginOk where
  name : MoText
  mobile : MoText
  sessionId : MoText
  deriving DecidableEq

/-- `login` (main.mo lines 117-152); every `#err` position in the source is
a `Runtime.trap`, modelled by `Except.error`. -/
def login (_caller : MoPrincipal) (mobile password : MoText) (now : MoTime)
    (st : State) : Except String (LoginOk × State) :=
  match mapGet st.mobileToUser mobile with
  | none => .error ("User does not exist")
  | some userPrincipal =>
    match mapGet st.userProfiles userPrincipal with
    | none => .error ("User profile not found")
    | some profile =>
      if profile.passwordHash ≠ hashPassword password then
        .error ("Invalid password")
      else
        let sessionId := hashPassword (profile.mobile ++ intToText now)
        let updatedProfile := { profile with sessionId := sessionId }
        .ok (⟨profile.name, profile.mobile, sessionId⟩,
          { st with userProfiles := mapAdd st.userProfiles userPrincipal updatedProfile })

/-- `checkSessionValid` (main.mo lines 154-164): returns a `Bool` and the
(unchanged) actor state — the body contains no store mutation. -/
def checkSessionValid (mobile sessionId : MoText) (st : State) : Bool × State :=
  (match mapGet st.mobileToUser mobile with
   | none => false
   | some userPrincipal =>
     match mapGet st.userProfiles userPrincipal with
     | none => false
     | some profile => profile.sessionId == sessionId,
   st)

/-- `logout` (main.mo lines 166-182). -/
def logout (caller : MoPrincipal) (mobile : MoText) (st : State) :
    Except String (Unit × State) :=
  match mapGet st.mobileToUser mobile with
  | none => .error ("User does not exist")
  | some userPrincipal =>
    if caller ≠ userPrincipal ∧ ¬ isAdmin st.accessControlState caller then
      .error ("Unauthorized: Can only logout yourself")
    else
      match mapGet st.userProfiles userPrincipal with
      | none => .error ("User profile not found")
      | some profile =>
        .ok ((),
          { st with userProfiles :=
              mapAdd st.userProfiles userPrincipal { profile with sessionId := [] } })

/-- `saveCallerUserProfile` (main.mo lines 88-93). -/
def saveCallerUserProfile (caller : MoPrincipal) (profile : UserProfile)
    (st : State) : Except String (Unit × State) :=
  if ¬ hasPermission st.accessControlState caller .user then
    .error ("Unauthorized: Only users can save profiles")
  else
    .ok ((), { st with userProfiles := mapAdd st.userProfiles caller profile })

/-- The ordering `Array.sort` uses on passages: `Passage.compare` not `.gt`. -/
def passageLe (p1 p2 : Passage) : Prop :=
  passageCompare p1 p2 ≠ .gt

/-- The ordering `Array.sort(TestResult.compareByTime)` uses on results. -/
def resultLe (r1 r2 : TestResult) : Prop :=
  compareByTime r1 r2 ≠ .gt

instance : DecidableRel passageLe := fun p1 p2 => by
  unfold passageLe; infer_instance

instance : DecidableRel resultLe := fun r1 r2 => by
  unfold resultLe; infer_instance

/-- `getPassages` (main.mo lines 185-190): sort the stored passages by
`Passage.compare` (ascending by id). -/
def getPassages (caller : MoPrincipal) (st : State) :
    Except String (List Passage) :=
  if ¬ hasPermission st.accessControlState caller .user then
    .error ("Unauthorized: Only users can view passages")
  else
    .ok (List.insertionSort passageLe (mapValues st.passages))

/-- `addPassage` (main.mo lines 192-205). -/
def addPassage (caller : MoPrincipal) (title content : MoText)
    (timeMinutes : Nat) (now : MoTime) (st : State) :
    Except String (MoText × State) :=
  if ¬ hasPermission st.accessControlState caller .admin then
    .error ("Unauthorized: Only admins can add passages")
  else
    let id := hashPassword (title ++ intToText now)
    let passage : Passage := ⟨id, title, content, timeMinutes⟩
    .ok (id, { st with passages := mapAdd st.passages id passage })

/-- The `{ #ok; #err : Text }` result type of the passage mutations. -/
inductive PassageRes
  | ok
  | err (msg : MoText)
  deriving DecidableEq

/-- `updatePassage` (main.mo lines 207-225): despite the declared
`{ #ok; #err }` result type, the missing-id branch is a `Runtime.trap`. -/
def updatePassage (caller : MoPrincipal) (id title content : MoText)
    (timeMinutes : Nat) (st : State) : Except String (PassageRes × State) :=
  if ¬ hasPermission st.accessControlState caller .admin then
    .error ("Unauthorized: Only admins can update passages")
  else
    match mapGet st.passages id with
    | none => .error ("Passage does not exist")
    | some existing =>
      let updatedPassage :=
        { existing with title := title, content := content, timeMinutes := timeMinutes }
      .ok (.ok, { st with passages := mapAdd st.passages id updatedPassage })

/-- `deletePassage` (main.mo lines 227-236): the missing-id branch is a
`Runtime.trap`, not `#err`. -/
def deletePassage (caller : MoPrincipal) (id : MoText) (st : State) :
    Except String (PassageRes × State) :=
  if ¬ hasPermission st.accessControlState caller .admin then
    .error ("Unauthorized: Only admins can delete passages")
  else
    if ¬ mapContains st.passages id then
      .error ("Passage does not exist")
    else
      .ok (.ok, { st with passages := mapRemove st.passages id })

/-- `submitTestResult` (main.mo lines 239-262). -/
def submitTestResult (caller : MoPrincipal)
    (userName userMobile passageTitle : MoText)
    (wpm accuracy mistakes : Nat) (now : MoTime) (st : State) :
    Except String (Unit × State) :=
  if ¬ hasPermission st.accessControlState caller .user then
    .error ("Unauthorized: Only users can submit test results")
  else
    let id := hashPassword (userMobile ++ intToText now)
    let testResult : TestResult :=
      ⟨id, userName, userMobile, passageTitle, wpm, accuracy, mistakes, now⟩
    .ok ((), { st with testResults := mapAdd st.testResults id testResult })

/-- `getTestResults` (main.mo lines 264-269): sort by `compareByTime`. -/
def getTestResults (caller : MoPrincipal) (st : State) :
    Except String (List TestResult) :=
  if ¬ hasPermission st.accessControlState caller .user then
    .error ("Unauthorized: Only users can view test results")
  else
    .ok (List.insertionSort resultLe (mapValues st.testResults))

/-- The three sample passages of `seedData` (main.mo lines 283-299). -/
def passagesToAdd : List (MoText × MoText × Nat) :=
  [(txt ("The Beauty of Nature"),
    txt ("Nature is a magnificent tapestry of life that surrounds us every day. From the gentle sway of trees in the wind to the vibrant colors of flowers in bloom, nature offers endless beauty and inspiration. The sounds of birds chirping, the smell of fresh rain, and the sight of a clear blue sky all contribute to the peacefulness that nature provides. Spending time outdoors can help reduce stress, improve mood, and foster a sense of connection to the world around us. Whether hiking through mountains, walking along a beach, or simply sitting in a park, immersing oneself in nature is a reminder of the wonders that exist beyond our daily routines."),
    10),
   (txt ("Advancements in Technology"),
    txt ("Technology has rapidly transformed the way we live, work, and communicate. From smartphones and computers to smart homes and artificial intelligence, innovations continue to shape our daily experiences. The internet has made information accessible to nearly everyone, enabling learning and collaboration across the globe. While technology brings many benefits, it also presents challenges such as privacy concerns and digital addiction. Balancing the use of technology with real-world interactions is essential for maintaining a healthy lifestyle. As new inventions emerge, it is important to adapt and use technology responsibly to improve our lives and society."),
    10),
   (txt ("A Journey Through History"),
    txt ("History is a record of human experiences, achievements, and lessons learned over centuries. It teaches us about cultures, conflicts, and the evolution of societies. Studying history helps us understand the origins of traditions, beliefs, and systems that shape the present. From ancient civilizations to modern times, history is filled with stories of triumph and tragedy. By learning from the past, we can make informed decisions and avoid repeating mistakes. History also highlights the resilience and creativity of people throughout the ages. Embracing history allows us to appreciate the progress made and encourages continued growth for future generations."),
    10)]

/-- `seedData` (main.mo lines 272-314): admin-gated; no-op when the passage
store is non-empty; otherwise inserts the three sample passages (each id
derived from title and the call time). -/
def seedData (caller : MoPrincipal) (now : MoTime) (st : State) :
    Except String (Unit × State) :=
  if ¬ hasPermission st.accessControlState caller .admin then
    .error ("Unauthorized: Only admins can seed data")
  else
    if mapSize st.passages > 0 then
      .ok ((), st)
    else
      let seeded :=
        passagesToAdd.foldl
          (fun ps t =>
            let id := hashPassword (t.1 ++ intToText now)
            mapAdd ps id ⟨id, t.1, t.2.1, t.2.2⟩)
          st.passages
      .ok ((), { st with passages := seeded })

/-- `addAdmin` (main.mo lines 316-340). -/
def addAdmin (caller : MoPrincipal) (st : State) : Except String (Unit × State) :=
  if ¬ hasPermission st.accessControlState caller .admin then
    .error ("Unauthorized: Only admins can add other admins")
  else
    let adminMobile := txt ("8055926965")
    if mapContains st.mobileToUser adminMobile then
      .ok ((), st)
    else
      let adminProfile : UserProfile :=
        ⟨txt ("admin"), adminMobile, hashPassword (txt ("admin123")), []⟩
      .ok ((),
        { st with
          userProfiles := mapAdd st.userProfiles caller adminProfile
          mobileToUser := mapAdd st.mobileToUser adminMobile caller
          accessControlState := assignRole st.accessControlState caller caller .admin })

/-- The stored session token belonging to a mobile number, when the mobile
is indexed and the indexed identity has a profile. -/
def storedToken (st : State) (mobile : MoText) : Option MoText :=
  (mapGet st.mobileToUser mobile).bind
    (fun p => (mapGet st.userProfiles p).map (·.sessionId))

/-- The `updatedPassage` record built by `updatePassage` (main.mo lines
216-220): the stored id is kept, the other fields are replaced. -/
def updatedPassage (existing : Passage) (title content : MoText)
    (timeMinutes : Nat) : Passage :=
  { existing with title := title, content := content, timeMinutes := timeMinutes }

/-- The passage store produced by a first seeding at call time `now`:
the three fixed sample passages, ids derived from title and call time. -/
def seededPassages (now : MoTime) : List (MoText × Passage) :=
  passagesToAdd.foldl
    (fun ps t =>
      mapAdd ps (hashPassword (t.1 ++ intToText now))
        ⟨hashPassword (t.1 ++ intToText now), t.1, t.2.1, t.2.2⟩) []

/-! ### Step relation and reachability -/

/-- One externally triggered state transition of the actor: any public
shared function invoked with any arguments by any caller (a trap leaves the
state unchanged, via `postState`), plus the role-assignment path of the
authorization module, modelled from the spec (assignments are added by
admins, with self-assignment bootstrapping the first admin). -/
inductive Step : State → State → Prop
  | registerStep (caller : MoPrincipal) (name mobile password : MoText) (st : State) :
      Step st (postState (registerUser caller name mobile password st) st)
  | saveProfileStep (caller : MoPrincipal) (profile : UserProfile) (st : State) :
      Step st (postState (saveCallerUserProfile caller profile st) st)
  | loginStep (caller : MoPrincipal) (mobile password : MoText) (now : MoTime) (st : State) :
      Step st (postState (login caller mobile password now st) st)
  | logoutStep (caller : MoPrincipal) (mobile : MoText) (st : State) :
      Step st (postState (logout caller mobile st) st)
  | addPassageStep (caller : MoPrincipal) (title content : MoText)
      (timeMinutes : Nat) (now : MoTime) (st : State) :
      Step st (postState (addPassage caller title content timeMinutes now st) st)
  | updatePassageStep (caller : MoPrincipal) (id title content : MoText)
      (timeMinutes : Nat) (st : State) :
      Step st (postState (updatePassage caller id title content timeMinutes st) st)
  | deletePassageStep (caller : MoPrincipal) (id : MoText) (st : State) :
      Step st (postState (deletePassage caller id st) st)
  | submitStep (caller : MoPrincipal) (userName userMobile passageTitle : MoText)
      (wpm accuracy mistakes : Nat) (now : MoTime) (st : State) :
      Step st (postState (submitTestResult caller userName userMobile passageTitle
        wpm accuracy mistakes now st) st)
  | seedStep (caller : MoPrincipal) (now : MoTime) (st : State) :
      Step st (postState (seedData caller now st) st)
  | addAdminStep (caller : MoPrincipal) (st : State) :
      Step st (postState (addAdmin caller st) st)
  | assignRoleStep (grantor target : MoPrincipal) (role : Role) (st : State) :
      Step st { st with accessControlState := assignRole st.accessControlState grantor target role }

/-- States reachable from the freshly installed actor. -/
inductive Reachable : State → Prop
  | init : Reachable initState
  | step {st st' : State} : Reachable st → Step st st' → Reachable st'

/-- The directory invariant: the mobile index has no duplicate keys, and
every indexed identity owns a profile. -/
def DirInv (st : State) : Prop :=
  (st.mobileToUser.map (·.1)).Nodup ∧
  ∀ m p, mapGet st.mobileToUser m = some p → (mapGet st.userProfiles p).isSome

/-! ### Concrete example data (used by witnesses and counterexamples) -/

def exMobile : MoText := txt ("9990001111")
def exMobile2 : MoText := txt ("9990002222")
def exName : MoText := txt ("Alice")
def exPw : MoText := txt ("pw1")

/-- State after Alice registers on the freshly installed actor. -/
def exSt1 : State :=
  postState (registerUser 7 exName exMobile exPw initState) initState

/-- State after Alice then logs in at time 1. -/
def exSt2 : State := postState (login 7 exMobile exPw 1 exSt1) exSt1

/-- State after Alice logs in a second time, at time 2. -/
def exSt3 : State := postState (login 7 exMobile exPw 2 exSt2) exSt2

/-- The session token minted by the login at time 1. -/
def exTok1 : MoText := hashPassword (exMobile ++ intToText 1)

/-- The session token minted by the login at time 2. -/
def exTok2 : MoText := hashPassword (exMobile ++ intToText 2)

def exPassage : Passage := ⟨txt ("pid1"), txt ("Title"), txt ("Content"), 5⟩

/-- A state with one admin (principal 0) and one stored passage. -/
def exAdminState : State :=
  { initState with
    passages := [(exPassage.id, exPassage)]
    accessControlState := [(0, Role.admin)] }

/-- A state with a user (principal 5) and two passages stored in reverse
id order. -/
def exUserPassState : State :=
  { initState with
    passages := [(txt ("b"), ⟨txt ("b"), txt ("B"), txt ("bb"), 3⟩),
                 (txt ("a"), ⟨txt ("a"), txt ("A"), txt ("aa"), 2⟩)]
    accessControlState := [(5, Role.user)] }

/-- The result record of Alice's login at time 1. -/
def exLogin1 : LoginOk := ⟨exName, exMobile, exTok1⟩

/-- The result record of Alice's login at time 2. -/
def exLogin2 : LoginOk := ⟨exName, exMobile, exTok2⟩

/-- The state after a first concrete result submission at time 1. -/
def exSub1 : State :=
  postState (submitTestResult 5 (txt ("Ann")) exMobile (txt ("P")) 30 90 1 1
    exUserPassState) exUserPassState

/-- The state after a second concrete result submission at time 2. -/
def exSub2 : State :=
  postState (submitTestResult 5 (txt ("Ben")) exMobile (txt ("Q")) 40 95 0 2
    exSub1) exSub1

/-! ### Helper lemmas about the map model -/

theorem mapGet_mapAdd_self {α β : Type} [DecidableEq α]
    (m : List (α × β)) (k : α) (v : β) :
    mapGet (mapAdd m k v) k = some v := by
  induction m with
  | nil => simp [mapAdd, mapGet]
  | cons hd tl ih =>
    by_cases h : k = hd.1
    · simp [mapAdd, mapGet, h]
    · simpa [mapAdd, mapGet, h] using ih

theorem mapGet_mapAdd_ne {α β : Type} [DecidableEq α]
    (m : List (α × β)) {k k' : α} (v : β) (h : k ≠ k') :
    mapGet (mapAdd m k' v) k = mapGet m k := by
  induction m with
  | nil => simp [mapAdd, mapGet, h]
  | cons hd tl ih =>
    by_cases h2 : k' = hd.1
    · subst h2
      simp [mapAdd, mapGet, h]
    · by_cases h3 : k = hd.1 <;> simp [mapAdd, mapGet, h2, h3, ih]

theorem mem_keys_mapAdd {α β : Type} [DecidableEq α]
    (m : List (α × β)) (k a : α) (v : β) :
    a ∈ (mapAdd m k v).map (·.1) → a ∈ m.map (·.1) ∨ a = k := by
  induction m with
  | nil =>
    intro h
    simp [mapAdd] at h
    right; exact h
  | cons hd tl ih =>
    intro h
    by_cases h2 : k = hd.1
    · simp only [mapAdd, if_pos h2, List.map_cons, List.mem_cons] at h
      rcases h with h | h
      · right; exact h
      · left; exact List.mem_cons_of_mem _ h
    · simp only [mapAdd, if_neg h2, List.map_cons, List.mem_cons] at h
      rcases h with h | h
      · left; exact List.mem_cons.mpr (Or.inl h)
      · rcases ih h with h3 | h3
        · left; exact List.mem_cons_of_mem _ h3
        · right; exact h3

theorem keysNodup_mapAdd {α β : Type} [DecidableEq α]
    (m : List (α × β)) (k : α) (v : β)
    (h : (m.map (·.1)).Nodup) : ((mapAdd m k v).map (·.1)).Nodup := by
  induction m with
  | nil => simp [mapAdd]
  | cons hd tl ih =>
    simp only [List.map_cons, List.nodup_cons] at h
    by_cases h2 : k = hd.1
    · subst h2
      simpa [mapAdd, List.nodup_cons] using h
    · simp only [mapAdd, if_neg h2, List.map_cons, List.nodup_cons]
      refine ⟨fun hmem => ?_, ih h.2⟩
      rcases mem_keys_mapAdd tl k hd.1 v hmem with h3 | h3
      · exact h.1 h3
      · exact h2 h3.symm

theorem mapGet_eq_some_of_mem {α β : Type} [DecidableEq α]
    {m : List (α × β)} {k : α} {v : β}
    (hn : (m.map (·.1)).Nodup) (hm : (k, v) ∈ m) :
    mapGet m k = some v := by
  induction m with
  | nil => simp at hm
  | cons hd tl ih =>
    simp only [List.map_cons, List.nodup_cons] at hn
    rcases List.mem_cons.mp hm with h | h
    · subst h
      simp [mapGet]
    · have hk : k ≠ hd.1 := by
        intro hkeq
        apply hn.1
        rw [← hkeq]
        exact List.mem_map.mpr ⟨(k, v), h, rfl⟩
      simp [mapGet, hk, ih hn.2 h]

theorem isSome_mapGet_mapAdd {α β : Type} [DecidableEq α]
    (m : List (α × β)) (k q : α) (v : β)
    (h : (mapGet m k).isSome) : (mapGet (mapAdd m q v) k).isSome := by
  by_cases h2 : k = q
  · subst h2
    simp [mapGet_mapAdd_self]
  · rwa [mapGet_mapAdd_ne m v h2]

/-! ### Decimal rendering and the session-token codec -/

theorem natVal_append_digit (l : List Nat) (d : Nat) :
    natVal (l ++ [d]) = natVal l * 10 + (d - 48) := by
  simp [natVal, List.foldl_append]

theorem natVal_natTextAux : ∀ fuel n, n < fuel → natVal (natTextAux fuel n) = n := by
  intro fuel
  induction fuel with
  | zero => intro n h; omega
  | succ f ih =>
    intro n h
    by_cases h10 : n < 10
    · simp [natTextAux, h10, natVal]
    · rw [natTextAux, if_neg h10, natVal_append_digit, ih (n / 10) (by omega)]
      omega

theorem natVal_natText (n : Nat) : natVal (natText n) = n :=
  natVal_natTextAux (n + 1) n (Nat.lt_succ_self n)

theorem natText_inj {m n : Nat} (h : natText m = natText n) : m = n := by
  have := natVal_natText m
  rw [h, natVal_natText] at this
  exact this.symm

theorem natTextAux_digits : ∀ fuel n, ∀ d ∈ natTextAux fuel n, 48 ≤ d ∧ d ≤ 57 := by
  intro fuel
  induction fuel with
  | zero => intro n d hd; simp [natTextAux] at hd
  | succ f ih =>
    intro n d hd
    by_cases h : n < 10
    · rw [natTextAux, if_pos h] at hd
      simp at hd
      omega
    · rw [natTextAux, if_neg h] at hd
      rcases List.mem_append.mp hd with h2 | h2
      · exact ih (n / 10) d h2
      · simp at h2
        have := Nat.mod_lt n (show 0 < 10 by omega)
        omega

theorem natText_digits (n : Nat) : ∀ d ∈ natText n, 48 ≤ d ∧ d ≤ 57 :=
  natTextAux_digits (n + 1) n

theorem natText_ne_nil (n : Nat) : natText n ≠ [] := by
  rw [natText, natTextAux]
  by_cases h : n < 10
  · rw [if_pos h]
    simp
  · rw [if_neg h]
    simp

theorem intToText_chars (i : Int) :
    ∀ d ∈ intToText i, d = 45 ∨ (48 ≤ d ∧ d ≤ 57) := by
  intro d hd
  unfold intToText at hd
  split at hd
  · rcases List.mem_cons.mp hd with h | h
    · left; exact h
    · right; exact natText_digits _ d h
  · right; exact natText_digits _ d hd

theorem intToText_inj {i j : Int} (h : intToText i = intToText j) : i = j := by
  unfold intToText at h
  split at h <;> split at h
  · rename_i hi hj
    have h2 : natText i.natAbs = natText j.natAbs := by
      simpa using h
    have := natText_inj h2
    omega
  · rename_i hi hj
    exfalso
    have h45 : 45 ∈ natText j.toNat := by
      rw [← h]; exact List.mem_cons_self _ _
    have := natText_digits j.toNat 45 h45
    omega
  · rename_i hi hj
    exfalso
    have h45 : 45 ∈ natText i.toNat := by
      rw [h]; exact List.mem_cons_self _ _
    have := natText_digits i.toNat 45 h45
    omega
  · rename_i hi hj
    have := natText_inj h
    omega

theorem hashChar_shift {c : Nat} (h1 : 30 ≤ c) (h2 : c ≤ 122) :
    hashChar c = c + 3 := by
  simp only [hashChar]
  rw [Nat.mod_eq_of_lt (show c + 3 < 126 by omega)]
  rw [if_neg (show ¬ c + 3 < 33 by omega)]

theorem map_hashChar_inj {l1 l2 : List Nat}
    (h1 : ∀ d ∈ l1, d = 45 ∨ (48 ≤ d ∧ d ≤ 57))
    (h2 : ∀ d ∈ l2, d = 45 ∨ (48 ≤ d ∧ d ≤ 57))
    (h : l1.map hashChar = l2.map hashChar) : l1 = l2 := by
  induction l1 generalizing l2 with
  | nil =>
    cases l2 with
    | nil => rfl
    | cons b bs => simp at h
  | cons a as ih =>
    cases l2 with
    | nil => simp at h
    | cons b bs =>
      simp only [List.map_cons, List.cons.injEq] at h
      have ha := h1 a (List.mem_cons_self _ _)
      have hb := h2 b (List.mem_cons_self _ _)
      have hsa : hashChar a = a + 3 := hashChar_shift (by omega) (by omega)
      have hsb : hashChar b = b + 3 := hashChar_shift (by omega) (by omega)
      have hab : a = b := by rw [hsa, hsb] at h; omega
      have htl : as = bs :=
        ih (fun d hd => h1 d (List.mem_cons_of_mem _ hd))
          (fun d hd => h2 d (List.mem_cons_of_mem _ hd)) h.2
      rw [hab, htl]

/-- The session-token mint `hashPassword(mobile # Time.now().toText())`
is injective in the time for a fixed mobile. -/
theorem mint_inj {mobile : MoText} {t1 t2 : MoTime}
    (h : hashPassword (mobile ++ intToText t1) = hashPassword (mobile ++ intToText t2)) :
    t1 = t2 := by
  unfold hashPassword at h
  rw [List.map_append, List.map_append] at h
  have h2 : (intToText t1).map hashChar = (intToText t2).map hashChar :=
    List.append_cancel_left h
  exact intToText_inj (map_hashChar_inj (intToText_chars t1) (intToText_chars t2) h2)

/-! ### Order lemmas for the two sorting relations -/

theorem ordC_eq_lt {a b : Nat} : ordC a b = .lt ↔ a < b := by
  unfold ordC
  split_ifs with h1 h2 <;> simp <;> omega

theorem ordC_eq_eq {a b : Nat} : ordC a b = .eq ↔ a = b := by
  unfold ordC
  split_ifs with h1 h2 <;> simp <;> omega

theorem ordC_eq_gt {a b : Nat} : ordC a b = .gt ↔ b < a := by
  unfold ordC
  split_ifs with h1 h2 <;> simp <;> omega

theorem textCompare_nil_ne_gt (c : MoText) : textCompare [] c ≠ .gt := by
  cases c with
  | nil => simp [textCompare]
  | cons x xs => simp [textCompare]

theorem textCompare_cons_nil (x : Nat) (xs : MoText) :
    textCompare (x :: xs) [] = .gt := by
  simp [textCompare]

theorem textCompare_le_trans :
    ∀ (a b c : MoText), textCompare a b ≠ .gt → textCompare b c ≠ .gt →
      textCompare a c ≠ .gt := by
  intro a
  induction a with
  | nil => intro b c _ _; exact textCompare_nil_ne_gt c
  | cons x xs ih =>
    intro b c h1 h2
    cases b with
    | nil => exact absurd (textCompare_cons_nil x xs) h1
    | cons y ys =>
      cases c with
      | nil => exact absurd (textCompare_cons_nil y ys) h2
      | cons z zs =>
        simp only [textCompare] at h1 h2 ⊢
        cases hxy : ordC x y with
        | gt => rw [hxy] at h1; exact absurd rfl h1
        | lt =>
          cases hyz : ordC y z with
          | gt => rw [hyz] at h2; exact absurd rfl h2
          | lt =>
            have hxz : ordC x z = .lt := by
              rw [ordC_eq_lt] at hxy hyz ⊢; omega
            rw [hxz]; simp
          | eq =>
            have hxz : ordC x z = .lt := by
              rw [ordC_eq_lt] at hxy ⊢
              rw [ordC_eq_eq] at hyz
              omega
            rw [hxz]; simp
        | eq =>
          cases hyz : ordC y z with
          | gt => rw [hyz] at h2; exact absurd rfl h2
          | lt =>
            have hxz : ordC x z = .lt := by
              rw [ordC_eq_eq] at hxy
              rw [ordC_eq_lt] at hyz ⊢
              omega
            rw [hxz]; simp
          | eq =>
            have hxz : ordC x z = .eq := by
              rw [ordC_eq_eq] at hxy hyz ⊢; omega
            rw [hxz]
            rw [hxy] at h1
            rw [hyz] at h2
            exact ih ys zs h1 h2

theorem ordC_swap (a b : Nat) : (ordC a b).swap = ordC b a := by
  unfold ordC
  split_ifs with h1 h2 <;> first
  | rfl
  | omega

theorem textCompare_swap : ∀ (a b : MoText),
    (textCompare a b).swap = textCompare b a := by
  intro a
  induction a with
  | nil => intro b; cases b <;> simp [textCompare, Ordering.swap]
  | cons x xs ih =>
    intro b
    cases b with
    | nil => simp [textCompare, Ordering.swap]
    | cons y ys =>
      simp only [textCompare]
      cases hxy : ordC x y with
      | lt =>
        have : ordC y x = .gt := by rw [← ordC_swap, hxy]; rfl
        rw [this]; rfl
      | gt =>
        have : ordC y x = .lt := by rw [← ordC_swap, hxy]; rfl
        rw [this]; rfl
      | eq =>
        have : ordC y x = .eq := by rw [← ordC_swap, hxy]; rfl
        rw [this]
        exact ih ys

theorem textCompare_le_total (a b : MoText) :
    textCompare a b ≠ .gt ∨ textCompare b a ≠ .gt := by
  cases h : textCompare a b with
  | gt =>
    right
    rw [← textCompare_swap, h]
    simp [Ordering.swap]
  | lt => left; simp
  | eq => left; simp

instance : IsTrans Passage passageLe :=
  ⟨fun _ _ _ h1 h2 => textCompare_le_trans _ _ _ h1 h2⟩

instance : IsTotal Passage passageLe :=
  ⟨fun p q => textCompare_le_total p.id q.id⟩

theorem intCompare_ne_gt {a b : Int} : intCompare a b ≠ .gt ↔ a ≤ b := by
  unfold intCompare
  split_ifs with h1 h2 <;> simp <;> omega

instance : IsTrans TestResult resultLe :=
  ⟨fun _ _ _ h1 h2 => by
    rw [resultLe, compareByTime, intCompare_ne_gt] at h1 h2 ⊢
    omega⟩

instance : IsTotal TestResult resultLe :=
  ⟨fun r1 r2 => by
    rw [resultLe, resultLe, compareByTime, compareByTime,
      intCompare_ne_gt, intCompare_ne_gt]
    omega⟩

theorem dirInv_of_fields {st st' : State}
    (h1 : st'.mobileToUser = st.mobileToUser)
    (h2 : st'.userProfiles = st.userProfiles)
    (h : DirInv st) : DirInv st' := by
  unfold DirInv at *
  rw [h1, h2]
  exact h

theorem dirInv_mapAdd_profiles (st : State) (q : MoPrincipal) (prof : UserProfile)
    (h : DirInv st) :
    DirInv { st with userProfiles := mapAdd st.userProfiles q prof } := by
  obtain ⟨h1, h2⟩ := h
  exact ⟨h1, fun m p hm => isSome_mapGet_mapAdd _ _ _ _ (h2 m p hm)⟩

theorem dirInv_registerLike (st : State) (caller : MoPrincipal)
    (prof : UserProfile) (mobile : MoText) (ac : ACState)
    (h : DirInv st) :
    DirInv { st with
             userProfiles := mapAdd st.userProfiles caller prof
             mobileToUser := mapAdd st.mobileToUser mobile caller
             accessControlState := ac } := by
  obtain ⟨h1, h2⟩ := h
  refine ⟨keysNodup_mapAdd _ _ _ h1, fun m p hm => ?_⟩
  by_cases hm2 : m = mobile
  · subst hm2
    rw [mapGet_mapAdd_self] at hm
    have hp : p = caller := by
      injection hm with h3
      exact h3.symm
    subst hp
    rw [mapGet_mapAdd_self]
    rfl
  · rw [mapGet_mapAdd_ne _ _ hm2] at hm
    exact isSome_mapGet_mapAdd _ _ _ _ (h2 m p hm)

theorem dirInv_postState_aux {α : Type} (r : Except String (α × State)) (st : State)
    (h : DirInv st)
    (hok : ∀ a s, r = .ok (a, s) → DirInv s) : DirInv (postState r st) := by
  cases r with
  | error e => exact h
  | ok v =>
    obtain ⟨a, s⟩ := v
    exact hok a s rfl

theorem dirInv_step {st st' : State} (hs : Step st st') (h : DirInv st) :
    DirInv st' := by
  cases hs with
  | registerStep caller name mobile password =>
    refine dirInv_postState_aux _ _ h (fun a s hr2 => ?_)
    by_cases hc : mapContains st.mobileToUser mobile
    · simp [registerUser, hc] at hr2
    · simp [registerUser, hc] at hr2
      rw [← hr2.2]
      exact dirInv_registerLike st caller _ mobile _ h
  | saveProfileStep caller profile =>
    refine dirInv_postState_aux _ _ h (fun a s hr2 => ?_)
    by_cases hp : hasPermission st.accessControlState caller .user
    · simp [saveCallerUserProfile, hp] at hr2
      rw [← hr2]
      exact dirInv_mapAdd_profiles st caller profile h
    · simp [saveCallerUserProfile, hp] at hr2
  | loginStep caller mobile password now =>
    refine dirInv_postState_aux _ _ h (fun a s hr2 => ?_)
    unfold login at hr2
    cases hmg : mapGet st.mobileToUser mobile with
    | none => simp only [hmg] at hr2; simp at hr2
    | some q =>
      simp only [hmg] at hr2
      cases hpg : mapGet st.userProfiles q with
      | none => simp only [hpg] at hr2; simp at hr2
      | some prof =>
        simp only [hpg] at hr2
        by_cases hpw : prof.passwordHash ≠ hashPassword password
        · simp only [if_pos hpw] at hr2
          simp at hr2
        · simp only [if_neg hpw] at hr2
          simp at hr2
          rw [← hr2.2]
          exact dirInv_mapAdd_profiles st q _ h
  | logoutStep caller mobile =>
    refine dirInv_postState_aux _ _ h (fun a s hr2 => ?_)
    unfold logout at hr2
    cases hmg : mapGet st.mobileToUser mobile with
    | none => simp only [hmg] at hr2; simp at hr2
    | some q =>
      simp only [hmg] at hr2
      by_cases hauth : caller ≠ q ∧ ¬ isAdmin st.accessControlState caller
      · simp only [if_pos hauth] at hr2
        simp at hr2
      · simp only [if_neg hauth] at hr2
        cases hpg : mapGet st.userProfiles q with
        | none => simp only [hpg] at hr2; simp at hr2
        | some prof =>
          simp only [hpg] at hr2
          simp at hr2
          rw [← hr2]
          exact dirInv_mapAdd_profiles st q _ h
  | addPassageStep caller title content timeMinutes now =>
    refine dirInv_postState_aux _ _ h (fun a s hr2 => ?_)
    by_cases hp : hasPermission st.accessControlState caller .admin
    · simp [addPassage, hp] at hr2
      exact dirInv_of_fields (by rw [← hr2.2]) (by rw [← hr2.2]) h
    · simp [addPassage, hp] at hr2
  | updatePassageStep caller id title content timeMinutes =>
    refine dirInv_postState_aux _ _ h (fun a s hr2 => ?_)
    unfold updatePassage at hr2
    by_cases hp : hasPermission st.accessControlState caller .admin
    · simp only [hp, not_true_eq_false, Bool.false_eq_true, if_false] at hr2
      cases hpg : mapGet st.passages id with
      | none => simp only [hpg] at hr2; simp at hr2
      | some existing =>
        simp only [hpg] at hr2
        simp at hr2
        exact dirInv_of_fields (by rw [← hr2.2]) (by rw [← hr2.2]) h
    · simp [hp] at hr2
  | deletePassageStep caller id =>
    refine dirInv_postState_aux _ _ h (fun a s hr2 => ?_)
    unfold deletePassage at hr2
    by_cases hp : hasPermission st.accessControlState caller .admin
    · simp only [hp, not_true_eq_false, Bool.false_eq_true, if_false] at hr2
      by_cases hc : mapContains st.passages id
      · simp [hc] at hr2
        exact dirInv_of_fields (by rw [← hr2.2]) (by rw [← hr2.2]) h
      · simp [hc] at hr2
    · simp [hp] at hr2
  | submitStep caller userName userMobile passageTitle wpm accuracy mistakes now =>
    refine dirInv_postState_aux _ _ h (fun a s hr2 => ?_)
    by_cases hp : hasPermission st.accessControlState caller .user
    · simp [submitTestResult, hp] at hr2
      exact dirInv_of_fields (by rw [← hr2]) (by rw [← hr2]) h
    · simp [submitTestResult, hp] at hr2
  | seedStep caller now =>
    refine dirInv_postState_aux _ _ h (fun a s hr2 => ?_)
    unfold seedData at hr2
    by_cases hp : hasPermission st.accessControlState caller .admin
    · simp only [hp, not_true_eq_false, Bool.false_eq_true, if_false] at hr2
      by_cases hsz : mapSize st.passages > 0
      · simp only [if_pos hsz] at hr2
        simp at hr2
        rw [← hr2]
        exact h
      · simp only [if_neg hsz] at hr2
        simp at hr2
        exact dirInv_of_fields (by rw [← hr2]) (by rw [← hr2]) h
    · simp [hp] at hr2
  | addAdminStep caller =>
    refine dirInv_postState_aux _ _ h (fun a s hr2 => ?_)
    unfold addAdmin at hr2
    by_cases hp : hasPermission st.accessControlState caller .admin
    · simp only [hp, not_true_eq_false, Bool.false_eq_true, if_false] at hr2
      by_cases hc : mapContains st.mobileToUser (txt ("8055926965"))
      · simp only [if_pos hc] at hr2
        simp at hr2
        rw [← hr2]
        exact h
      · simp only [if_neg hc] at hr2
        simp at hr2
        rw [← hr2]
        exact dirInv_registerLike st caller _ _ _ h
    · simp [hp] at hr2
  | assignRoleStep grantor target role =>
    exact h

/-- The directory invariant holds in every reachable state. -/
theorem reachable_dirInv {st : State} (h : Reachable st) : DirInv st := by
  induction h with
  | init =>
    refine ⟨List.nodup_nil, fun m p hm => ?_⟩
    simp [initState, mapGet] at hm
  | step hr hs ih => exact dirInv_step hs ih

/-! ### C6 -/

/-- C6: for every state, `checkSessionValid(mobile, token)` returns false
if the mobile is not in the index, false if the mapped identity has no
profile, and otherwise the boolean equality of the presented token with
the stored session token; and the call never mutates any store (the
returned actor state is the pre-state). -/
theorem C6_checkSessionValid_contract (st : State) (mobile tok : MoText) :
    (mapGet st.mobileToUser mobile = none →
      (checkSessionValid mobile tok st).1 = false) ∧
    (∀ p, mapGet st.mobileToUser mobile = some p →
      mapGet st.userProfiles p = none →
      (checkSessionValid mobile tok st).1 = false) ∧
    (∀ p prof, mapGet st.mobileToUser mobile = some p →
      mapGet st.userProfiles p = some prof →
      (checkSessionValid mobile tok st).1 = (prof.sessionId == tok)) ∧
    (checkSessionValid mobile tok st).2 = st := by
  refine ⟨fun h => ?_, fun p h1 h2 => ?_, fun p prof h1 h2 => ?_, rfl⟩
  · simp [checkSessionValid, h]
  · simp [checkSessionValid, h1, h2]
  · simp [checkSessionValid, h1, h2]

/-- Witness for C6: concrete evaluation at the registered-account state. -/
theorem C6_witness :
    mapGet exSt1.mobileToUser exMobile = some 7 ∧
    mapGet exSt1.userProfiles 7 = some ⟨exName, exMobile, hashPassword exPw, []⟩ ∧
    (checkSessionValid exMobile exTok1 exSt1).1 =
      ((⟨exName, exMobile, hashPassword exPw, []⟩ : UserProfile).sessionId == exTok1) :=
  ⟨by decide, by decide,
    (C6_checkSessionValid_contract exSt1 exMobile exTok1).2.2.1 7
      ⟨exName, exMobile, hashPassword exPw, []⟩ (by decide) (by decide)⟩

/-! ### C4 -/

/-- C4 counterexample: `exSt1` is reachable (fresh actor, one
registration), Alice's stored session token is the empty string (never
logged in), yet presenting the empty token makes `checkSessionValid`
return true — refuting the claim that no presented token makes
`checkSessionValid` return true for a logged-out account. -/
theorem C4_counterexample :
    Reachable exSt1 ∧
    storedToken exSt1 exMobile = some [] ∧
    (checkSessionValid exMobile [] exSt1).1 = true :=
  ⟨Reachable.step Reachable.init (Step.registerStep 7 exName exMobile exPw initState),
   by decide, by decide⟩

/-- C4 amended: for every account whose stored session token is the empty
string, no NON-EMPTY presented token makes `checkSessionValid` return
true; the empty presented token itself does validate (it equals the stored
empty token), so a non-empty token is the only proof of an active session
only among non-empty presentations. -/
theorem C4_amended_empty_session (st : State) (mobile tok : MoText)
    (hstored : storedToken st mobile = some [])
    (htok : tok ≠ []) :
    (checkSessionValid mobile tok st).1 = false := by
  unfold storedToken at hstored
  cases hmg : mapGet st.mobileToUser mobile with
  | none => rw [hmg] at hstored; simp at hstored
  | some p =>
    rw [hmg] at hstored
    simp only [Option.some_bind] at hstored
    cases hpg : mapGet st.userProfiles p with
    | none => rw [hpg] at hstored; simp at hstored
    | some prof =>
      rw [hpg] at hstored
      have hsess : prof.sessionId = [] := by
        simpa using hstored
      simp [checkSessionValid, hmg, hpg, hsess]
      intro hcon
      exact htok hcon

/-- Witness for the amended C4. -/
theorem C4_amended_witness :
    storedToken exSt1 exMobile = some [] ∧ exTok1 ≠ [] ∧
    (checkSessionValid exMobile exTok1 exSt1).1 = false :=
  ⟨by decide, by decide,
    C4_amended_empty_session exSt1 exMobile exTok1 (by decide) (by decide)⟩

/-! ### C5 -/

/-- C5 counterexample: with an admin caller and a passage id absent from
the store, `updatePassage` and `deletePassage` abort the whole call with a
trap (`Runtime.trap("Passage does not exist")`) instead of returning a
`#err` (NotFound) result value to the caller. -/
theorem C5_counterexample :
    updatePassage 0 (txt ("missing")) (txt ("t")) (txt ("c")) 5 exAdminState =
      .error ("Passage does not exist") ∧
    deletePassage 0 (txt ("missing")) exAdminState =
      .error ("Passage does not exist") :=
  ⟨rfl, rfl⟩

/-- C5 amended: for every admin caller, passage ids absent from the store
make `updatePassage` and `deletePassage` ABORT the whole call (trap, with
the stores rolled back unchanged) — exactly like the hard failures of the
other operations — while present ids return the `#ok` result value with
the store updated; the declared `#err` variant is never produced. -/
theorem C5_amended_passage_mutations (st : State) (caller : MoPrincipal)
    (id title content : MoText) (timeMinutes : Nat)
    (hp : hasPermission st.accessControlState caller .admin = true) :
    (mapGet st.passages id = none →
      updatePassage caller id title content timeMinutes st =
        .error ("Passage does not exist") ∧
      deletePassage caller id st = .error ("Passage does not exist") ∧
      postState (updatePassage caller id title content timeMinutes st) st = st ∧
      postState (deletePassage caller id st) st = st) ∧
    (∀ existing, mapGet st.passages id = some existing →
      updatePassage caller id title content timeMinutes st =
        .ok (.ok, { st with passages := mapAdd st.passages id (updatedPassage existing title content timeMinutes) }) ∧
      deletePassage caller id st =
        .ok (.ok, { st with passages := mapRemove st.passages id })) := by
  constructor
  · intro h
    have hc : mapContains st.passages id = false := by
      rw [mapContains, h]
      rfl
    refine ⟨?_, ?_, ?_, ?_⟩
    · simp [updatePassage, hp, h]
    · simp [deletePassage, hp, hc]
    · simp [updatePassage, hp, h, postState]
    · simp [deletePassage, hp, hc, postState]
  · intro existing h
    have hc : mapContains st.passages id = true := by
      rw [mapContains, h]
      rfl
    constructor
    · simp [updatePassage, hp, h, updatedPassage]
    · simp [deletePassage, hp, hc]

/-- Witness for the amended C5: both branches evaluated concretely. -/
theorem C5_witness :
    hasPermission exAdminState.accessControlState 0 .admin = true ∧
    mapGet exAdminState.passages (txt ("missing2")) = none ∧
    updatePassage 0 (txt ("missing2")) (txt ("t")) (txt ("c")) 5 exAdminState =
      .error ("Passage does not exist") ∧
    postState (deletePassage 0 (txt ("missing2")) exAdminState) exAdminState =
      exAdminState :=
  ⟨by decide, by decide,
    ((C5_amended_passage_mutations exAdminState 0 (txt ("missing2")) (txt ("t"))
      (txt ("c")) 5 (by decide)).1 (by decide)).1,
    ((C5_amended_passage_mutations exAdminState 0 (txt ("missing2")) (txt ("t"))
      (txt ("c")) 5 (by decide)).1 (by decide)).2.2.2⟩

/-! ### C1 -/

/-- C1: in every reachable state at most one identity maps to any mobile
number; when a mobile is already indexed, `registerUser` with it fails
(trap `"Mobile number already registered"`, the duplicate-mobile failure)
and leaves all stores unchanged; when the mobile is not yet indexed it
succeeds with `"OK"`, stores a profile with empty session, adds the
mobile-to-identity index entry, and grants the `user` capability to the
caller. -/
theorem C1_registerUser_contract (st : State) (caller : MoPrincipal)
    (name mobile password : MoText) (hreach : Reachable st) :
    (∀ m p q, (m, p) ∈ st.mobileToUser → (m, q) ∈ st.mobileToUser → p = q) ∧
    (mapContains st.mobileToUser mobile = true →
      registerUser caller name mobile password st =
        .error ("Mobile number already registered") ∧
      postState (registerUser caller name mobile password st) st = st) ∧
    (mapContains st.mobileToUser mobile = false →
      ∃ st', registerUser caller name mobile password st = .ok (txt ("OK"), st') ∧
        mapGet st'.userProfiles caller =
          some ⟨name, mobile, hashPassword password, []⟩ ∧
        mapGet st'.mobileToUser mobile = some caller ∧
        hasPermission st'.accessControlState caller .user = true) := by
  obtain ⟨hnodup, hprofs⟩ := reachable_dirInv hreach
  refine ⟨?_, ?_, ?_⟩
  · intro m p q hp hq
    have h1 := mapGet_eq_some_of_mem hnodup hp
    have h2 := mapGet_eq_some_of_mem hnodup hq
    rw [h1] at h2
    injection h2
  · intro hc
    constructor
    · simp [registerUser, hc]
    · simp [registerUser, hc, postState]
  · intro hc
    refine ⟨{ st with
        userProfiles := mapAdd st.userProfiles caller ⟨name, mobile, hashPassword password, []⟩
        mobileToUser := mapAdd st.mobileToUser mobile caller
        accessControlState := assignRole st.accessControlState caller caller .user },
      ?_, ?_, ?_, ?_⟩
    · simp [registerUser, hc]
    · exact mapGet_mapAdd_self _ _ _
    · exact mapGet_mapAdd_self _ _ _
    · show hasPermission (mapAdd st.accessControlState caller .user) caller .user = true
      simp [hasPermission, mapGet_mapAdd_self]

/-- Witness for C1: register Alice on the fresh actor. -/
theorem C1_witness :
    mapContains initState.mobileToUser exMobile = false ∧
    (∃ st', registerUser 7 exName exMobile exPw initState = .ok (txt ("OK"), st') ∧
      mapGet st'.userProfiles 7 = some ⟨exName, exMobile, hashPassword exPw, []⟩ ∧
      mapGet st'.mobileToUser exMobile = some 7 ∧
      hasPermission st'.accessControlState 7 .user = true) :=
  ⟨by decide,
    (C1_registerUser_contract initState 7 exName exMobile exPw Reachable.init).2.2
      (by decide)⟩

/-! ### C10 -/

/-- C10: a caller `p` who already owns a profile with mobile `m1`
(indexed to `p`) can call `registerUser` again with a different, unindexed
mobile `m2`: there is no already-registered check, the call succeeds and
overwrites the caller's single profile with the new one (mobile field
`m2`), while the old index entry `m1 → p` stays in place — both `m1` and
`m2` then map to the one identity whose stored profile mobile is `m2`. -/
theorem C10_reregistration (st : State) (p : MoPrincipal)
    (name2 m1 m2 pw2 : MoText) (prof0 : UserProfile)
    (_hprof : mapGet st.userProfiles p = some prof0)
    (_hm1 : prof0.mobile = m1)
    (hidx : mapGet st.mobileToUser m1 = some p)
    (hfresh : mapContains st.mobileToUser m2 = false) :
    ∃ st', registerUser p name2 m2 pw2 st = .ok (txt ("OK"), st') ∧
      mapGet st'.userProfiles p = some ⟨name2, m2, hashPassword pw2, []⟩ ∧
      mapGet st'.mobileToUser m1 = some p ∧
      mapGet st'.mobileToUser m2 = some p := by
  have hne : m1 ≠ m2 := by
    intro he
    rw [he] at hidx
    rw [mapContains, hidx] at hfresh
    simp at hfresh
  refine ⟨{ st with
      userProfiles := mapAdd st.userProfiles p ⟨name2, m2, hashPassword pw2, []⟩
      mobileToUser := mapAdd st.mobileToUser m2 p
      accessControlState := assignRole st.accessControlState p p .user },
    ?_, ?_, ?_, ?_⟩
  · simp [registerUser, hfresh]
  · exact mapGet_mapAdd_self _ _ _
  · show mapGet (mapAdd st.mobileToUser m2 p) m1 = some p
    rw [mapGet_mapAdd_ne _ _ hne]
    exact hidx
  · exact mapGet_mapAdd_self _ _ _

/-- Witness for C10: Alice (registered with `exMobile`) registers again
with `exMobile2`. -/
theorem C10_witness :
    mapGet exSt1.userProfiles 7 = some ⟨exName, exMobile, hashPassword exPw, []⟩ ∧
    mapContains exSt1.mobileToUser exMobile2 = false ∧
    (∃ st', registerUser 7 exName exMobile2 exPw exSt1 = .ok (txt ("OK"), st') ∧
      mapGet st'.userProfiles 7 = some ⟨exName, exMobile2, hashPassword exPw, []⟩ ∧
      mapGet st'.mobileToUser exMobile = some 7 ∧
      mapGet st'.mobileToUser exMobile2 = some 7) :=
  ⟨by decide, by decide,
    C10_reregistration exSt1 7 exName exMobile exMobile2 exPw
      ⟨exName, exMobile, hashPassword exPw, []⟩
      (by decide) (by decide) (by decide) (by decide)⟩

/-! ### C3 -/

/-- `exSt1` is reachable: one register step from the fresh actor. -/
theorem reachable_exSt1 : Reachable exSt1 :=
  Reachable.step Reachable.init (Step.registerStep 7 exName exMobile exPw initState)

/-- C3: the login contract. In every reachable state, `login` fails with
the no-such-user trap when the mobile is not indexed; an indexed mobile
always has a profile (so the profile-missing trap is unreachable); a wrong
password (stored credential differs from `hash(password)`) fails with the
invalid-credential trap; and on success login mints the session token
derived from the profile mobile and the current time, overwrites the
profile's session field with it, and returns exactly that token. -/
theorem C3_login_contract (st : State) (caller : MoPrincipal)
    (mobile password : MoText) (now : MoTime) (hreach : Reachable st) :
    (mapGet st.mobileToUser mobile = none →
      login caller mobile password now st = .error ("User does not exist")) ∧
    (∀ p, mapGet st.mobileToUser mobile = some p →
      (mapGet st.userProfiles p).isSome) ∧
    (∀ p prof, mapGet st.mobileToUser mobile = some p →
      mapGet st.userProfiles p = some prof →
      prof.passwordHash ≠ hashPassword password →
      login caller mobile password now st = .error ("Invalid password")) ∧
    (∀ p prof, mapGet st.mobileToUser mobile = some p →
      mapGet st.userProfiles p = some prof →
      prof.passwordHash = hashPassword password →
      ∃ st', login caller mobile password now st =
          .ok (⟨prof.name, prof.mobile, hashPassword (prof.mobile ++ intToText now)⟩, st') ∧
        mapGet st'.userProfiles p =
          some { prof with sessionId := hashPassword (prof.mobile ++ intToText now) } ∧
        storedToken st' mobile =
          some (hashPassword (prof.mobile ++ intToText now))) := by
  refine ⟨fun h => by simp [login, h], ?_, ?_, ?_⟩
  · intro p hp
    exact (reachable_dirInv hreach).2 mobile p hp
  · intro p prof h1 h2 h3
    simp [login, h1, h2, h3]
  · intro p prof h1 h2 h3
    refine ⟨{ st with userProfiles := mapAdd st.userProfiles p { prof with sessionId := hashPassword (prof.mobile ++ intToText now) } }, ?_, ?_, ?_⟩
    · simp [login, h1, h2, h3]
    · exact mapGet_mapAdd_self _ _ _
    · unfold storedToken
      show (mapGet st.mobileToUser mobile).bind _ = _
      rw [h1]
      simp only [Option.some_bind]
      rw [mapGet_mapAdd_self]
      rfl

/-- Witness for C3: successful login at the registered-account state. -/
theorem C3_witness :
    (⟨exName, exMobile, hashPassword exPw, []⟩ : UserProfile).passwordHash =
      hashPassword exPw ∧
    (∃ st', login 9 exMobile exPw 1 exSt1 =
        .ok (⟨exName, exMobile, hashPassword (exMobile ++ intToText 1)⟩, st') ∧
      mapGet st'.userProfiles 7 =
        some ⟨exName, exMobile, hashPassword exPw, hashPassword (exMobile ++ intToText 1)⟩ ∧
      storedToken st' exMobile = some (hashPassword (exMobile ++ intToText 1))) :=
  ⟨by decide,
    (C3_login_contract exSt1 9 exMobile exPw 1 reachable_exSt1).2.2.2 7
      ⟨exName, exMobile, hashPassword exPw, []⟩ (by decide) (by decide) (by decide)⟩

/-! ### C2 -/

/-- C2: single active session. (a) Generally, whenever the stored session
token of an account differs from a presented token — which is the case in
every state after that token has been replaced by a newer login or cleared
by logout, until the exact token value is stored again — `checkSessionValid`
with the old token returns false. (b) In particular, after registering a
fresh mobile, a first login at time `t1` yielding token `r1.sessionId`,
then a second login at a different time `t2` yielding a new token,
`checkSessionValid(mobile, r1.sessionId)` returns false. -/
theorem C2_stale_token_invalid :
    (∀ (st : State) (mobile old tok' : MoText),
      storedToken st mobile = some tok' → tok' ≠ old →
      (checkSessionValid mobile old st).1 = false) ∧
    (∀ (st : State) (c1 c2 c3 : MoPrincipal) (name mobile password : MoText)
      (t1 t2 : MoTime) (r1 : LoginOk) (st2 : State) (r2 : LoginOk) (st3 : State),
      mapContains st.mobileToUser mobile = false →
      t1 ≠ t2 →
      login c2 mobile password t1
        (postState (registerUser c1 name mobile password st) st) = .ok (r1, st2) →
      login c3 mobile password t2 st2 = .ok (r2, st3) →
      (checkSessionValid mobile r1.sessionId st3).1 = false) := by
  constructor
  · intro st mobile old tok' hst hne
    unfold storedToken at hst
    cases hmg : mapGet st.mobileToUser mobile with
    | none => rw [hmg] at hst; simp at hst
    | some p =>
      rw [hmg] at hst
      simp only [Option.some_bind] at hst
      cases hpg : mapGet st.userProfiles p with
      | none => rw [hpg] at hst; simp at hst
      | some prof =>
        rw [hpg] at hst
        have hsess : prof.sessionId = tok' := by simpa using hst
        simp [checkSessionValid, hmg, hpg, hsess]
        exact hne
  · intro st c1 c2 c3 name mobile password t1 t2 r1 st2 r2 st3 hfresh hne h1 h2
    have hst1 : postState (registerUser c1 name mobile password st) st =
        { st with
          userProfiles := mapAdd st.userProfiles c1 ⟨name, mobile, hashPassword password, []⟩
          mobileToUser := mapAdd st.mobileToUser mobile c1
          accessControlState := assignRole st.accessControlState c1 c1 .user } := by
      simp [registerUser, hfresh, postState]
    rw [hst1] at h1
    unfold login at h1
    simp only [mapGet_mapAdd_self] at h1
    simp at h1
    obtain ⟨h1a, h1b⟩ := h1
    unfold login at h2
    rw [← h1b] at h2
    simp only [mapGet_mapAdd_self] at h2
    simp at h2
    obtain ⟨h2a, h2b⟩ := h2
    rw [← h2b]
    rw [← h1a]
    simp only [checkSessionValid, mapGet_mapAdd_self]
    have hT : hashPassword (mobile ++ intToText t2) ≠ hashPassword (mobile ++ intToText t1) := by
      intro hT2
      exact hne (mint_inj hT2).symm
    simpa using hT

/-- Witness for C2: the register/login/login run evaluated concretely. -/
theorem C2_witness :
    mapContains initState.mobileToUser exMobile = false ∧ (1 : MoTime) ≠ 2 ∧
    login 7 exMobile exPw 1
      (postState (registerUser 7 exName exMobile exPw initState) initState) =
        .ok (exLogin1, exSt2) ∧
    login 7 exMobile exPw 2 exSt2 = .ok (exLogin2, exSt3) ∧
    (checkSessionValid exMobile exLogin1.sessionId exSt3).1 = false :=
  ⟨by decide, by decide, by rfl, by rfl,
    C2_stale_token_invalid.2 initState 7 7 7 exName exMobile exPw 1 2
      exLogin1 exSt2 exLogin2 exSt3 (by decide) (by decide) (by rfl) (by rfl)⟩

/-! ### C7 -/

/-- C7: for every state, a caller with the user capability gets from
`getPassages` the finite set of stored passages — recomputed from the
store on each call: the output is a permutation of the store's current
values — as a sequence sorted ascending by id under the lexicographic
text comparison (`Passage.compare`). -/
theorem C7_getPassages_sorted (st : State) (caller : MoPrincipal)
    (hp : hasPermission st.accessControlState caller .user = true) :
    ∃ out, getPassages caller st = .ok out ∧
      out.Perm (mapValues st.passages) ∧
      out.Sorted passageLe := by
  refine ⟨List.insertionSort passageLe (mapValues st.passages), ?_, ?_, ?_⟩
  · simp [getPassages, hp]
  · exact List.perm_insertionSort _ _
  · exact List.sorted_insertionSort _ _

/-- Witness for C7: concrete two-passage store listed in sorted order. -/
theorem C7_witness :
    hasPermission exUserPassState.accessControlState 5 .user = true ∧
    (∃ out, getPassages 5 exUserPassState = .ok out ∧
      out.Perm (mapValues exUserPassState.passages) ∧
      out.Sorted passageLe) :=
  ⟨by decide, C7_getPassages_sorted exUserPassState 5 (by decide)⟩

/-! ### C8 -/

theorem mapAdd_nil_ne {α β : Type} [DecidableEq α] (k : α) (v : β)
    {m : List (α × β)} (h : m = []) : mapAdd m k v = [(k, v)] := by
  rw [h, mapAdd]

/-- C8: for every state, a caller with the user capability gets from
`getTestResults` all stored results sorted ascending by timestamp (the
output is a permutation of the store's values, pairwise non-decreasing in
timestamp); and since `submitTestResult` assigns its timestamp at
submission time, two results submitted by sequential calls (for the same
mobile, at increasing times, from a state with no stored results) appear
in the returned list in call order. -/
theorem C8_getTestResults_sorted (st : State) (caller : MoPrincipal)
    (hp : hasPermission st.accessControlState caller .user = true) :
    (∃ out, getTestResults caller st = .ok out ∧
      out.Perm (mapValues st.testResults) ∧
      out.Pairwise (fun r1 r2 => r1.timestamp ≤ r2.timestamp)) ∧
    (∀ (s0 : State) (un1 un2 um pt1 pt2 : MoText) (w1 a1 m1 w2 a2 m2 : Nat)
      (t1 t2 : MoTime) (s1 s2 : State),
      s0.testResults = [] →
      hasPermission s0.accessControlState caller .user = true →
      t1 < t2 →
      submitTestResult caller un1 um pt1 w1 a1 m1 t1 s0 = .ok ((), s1) →
      submitTestResult caller un2 um pt2 w2 a2 m2 t2 s1 = .ok ((), s2) →
      getTestResults caller s2 =
        .ok [⟨hashPassword (um ++ intToText t1), un1, um, pt1, w1, a1, m1, t1⟩,
             ⟨hashPassword (um ++ intToText t2), un2, um, pt2, w2, a2, m2, t2⟩]) := by
  constructor
  · refine ⟨List.insertionSort resultLe (mapValues st.testResults), ?_, ?_, ?_⟩
    · simp [getTestResults, hp]
    · exact List.perm_insertionSort _ _
    · refine (List.sorted_insertionSort resultLe (mapValues st.testResults)).imp ?_
      intro r1 r2 h12
      rw [resultLe, compareByTime, intCompare_ne_gt] at h12
      exact h12
  · intro s0 un1 un2 um pt1 pt2 w1 a1 m1 w2 a2 m2 t1 t2 s1 s2
      hempty hp0 hlt h1 h2
    have hid : hashPassword (um ++ intToText t1) ≠ hashPassword (um ++ intToText t2) := by
      intro he
      rw [mint_inj he] at hlt
      exact lt_irrefl _ hlt
    simp only [submitTestResult, hp0, not_true_eq_false, Bool.false_eq_true,
      if_false] at h1
    simp at h1
    rw [← h1] at h2
    simp only [submitTestResult] at h2
    rw [show ({ s0 with testResults := mapAdd s0.testResults (hashPassword (um ++ intToText t1)) ⟨hashPassword (um ++ intToText t1), un1, um, pt1, w1, a1, m1, t1⟩ } : State).accessControlState = s0.accessControlState from rfl] at h2
    simp only [hp0, not_true_eq_false, Bool.false_eq_true, if_false] at h2
    simp at h2
    rw [← h2]
    simp only [getTestResults, hp0, not_true_eq_false, Bool.false_eq_true, if_false]
    rw [mapAdd_nil_ne _ _ hempty]
    rw [show mapAdd [(hashPassword (um ++ intToText t1), (⟨hashPassword (um ++ intToText t1), un1, um, pt1, w1, a1, m1, t1⟩ : TestResult))] (hashPassword (um ++ intToText t2)) ⟨hashPassword (um ++ intToText t2), un2, um, pt2, w2, a2, m2, t2⟩ = [(hashPassword (um ++ intToText t1), ⟨hashPassword (um ++ intToText t1), un1, um, pt1, w1, a1, m1, t1⟩), (hashPassword (um ++ intToText t2), ⟨hashPassword (um ++ intToText t2), un2, um, pt2, w2, a2, m2, t2⟩)] from by rw [mapAdd, if_neg hid.symm, mapAdd]]
    have hle : resultLe ⟨hashPassword (um ++ intToText t1), un1, um, pt1, w1, a1, m1, t1⟩ ⟨hashPassword (um ++ intToText t2), un2, um, pt2, w2, a2, m2, t2⟩ := by
      rw [resultLe, compareByTime, intCompare_ne_gt]
      show t1 ≤ t2
      exact le_of_lt hlt
    simp [mapValues, List.insertionSort, List.orderedInsert, hle]

/-- Witness for C8: two sequential submissions listed in call order. -/
theorem C8_witness :
    exUserPassState.testResults = [] ∧ (1 : MoTime) < 2 ∧
    submitTestResult 5 (txt ("Ann")) exMobile (txt ("P")) 30 90 1 1
      exUserPassState = .ok ((), exSub1) ∧
    submitTestResult 5 (txt ("Ben")) exMobile (txt ("Q")) 40 95 0 2
      exSub1 = .ok ((), exSub2) ∧
    getTestResults 5 exSub2 =
      .ok [⟨hashPassword (exMobile ++ intToText 1), txt ("Ann"), exMobile, txt ("P"), 30, 90, 1, 1⟩,
           ⟨hashPassword (exMobile ++ intToText 2), txt ("Ben"), exMobile, txt ("Q"), 40, 95, 0, 2⟩] :=
  ⟨by decide, by decide, by rfl, by rfl,
    (C8_getTestResults_sorted exUserPassState 5 (by decide)).2 exUserPassState
      (txt ("Ann")) (txt ("Ben")) exMobile (txt ("P")) (txt ("Q"))
      30 90 1 40 95 0 1 2 exSub1 exSub2
      (by rfl) (by decide) (by decide) (by rfl) (by rfl)⟩

/-! ### C9 -/

theorem mapAdd_ne_nil {α β : Type} [DecidableEq α] (m : List (α × β)) (k : α) (v : β) :
    mapAdd m k v ≠ [] := by
  cases m with
  | nil => simp [mapAdd]
  | cons hd tl =>
    obtain ⟨k', v'⟩ := hd
    rw [mapAdd]
    split
    · simp
    · simp

theorem seededPassages_ne_nil (now : MoTime) : seededPassages now ≠ [] := by
  simp only [seededPassages, passagesToAdd, List.foldl]
  exact mapAdd_ne_nil _ _ _

/-- C9: `seedData` is idempotent on the passage store: for every state,
caller and pair of call times, running it twice leaves exactly the passage
store of running it once.  Moreover, for an admin caller it is a no-op
(the whole state is unchanged) whenever the passage store is non-empty,
and on an empty store it inserts exactly the fixed set of three sample
passages. -/
theorem C9_seedData_idempotent (st : State) (caller : MoPrincipal)
    (now1 now2 : MoTime) :
    (postState (seedData caller now2 (postState (seedData caller now1 st) st))
        (postState (seedData caller now1 st) st)).passages =
      (postState (seedData caller now1 st) st).passages ∧
    (hasPermission st.accessControlState caller .admin = true →
      (st.passages ≠ [] → postState (seedData caller now1 st) st = st) ∧
      (st.passages = [] →
        (postState (seedData caller now1 st) st).passages = seededPassages now1)) := by
  by_cases hp : hasPermission st.accessControlState caller .admin
  · by_cases hsz : mapSize st.passages > 0
    · have h1 : postState (seedData caller now1 st) st = st := by
        simp [seedData, hp, hsz, postState]
      refine ⟨?_, fun _ => ⟨fun _ => h1, fun hnil => ?_⟩⟩
      · rw [h1]
        simp [seedData, hp, hsz, postState]
      · exfalso
        rw [mapSize, hnil] at hsz
        simp at hsz
    · have hnil : st.passages = [] := by
        rw [mapSize] at hsz
        simpa using List.length_eq_zero.mp (by omega)
      have h1 : postState (seedData caller now1 st) st =
          { st with passages := seededPassages now1 } := by
        simp [seedData, hp, hsz, postState, seededPassages, hnil, mapSize]
      have hne2 : seededPassages now1 ≠ [] := seededPassages_ne_nil now1
      have hsz2 : mapSize ({ st with passages := seededPassages now1 } : State).passages > 0 := by
        show 0 < (seededPassages now1).length
        exact List.length_pos.mpr hne2
      refine ⟨?_, fun _ => ⟨fun hcon => absurd hnil hcon, fun _ => by rw [h1]⟩⟩
      rw [h1]
      simp [seedData, hp, hsz2, postState]
  · have h1 : postState (seedData caller now1 st) st = st := by
      simp [seedData, hp, postState]
    refine ⟨?_, fun hcon => absurd hcon hp⟩
    rw [h1]
    simp [seedData, hp, postState]

/-- Witness for C9: the no-op branch at a concrete non-empty store. -/
theorem C9_witness :
    hasPermission exAdminState.accessControlState 0 .admin = true ∧
    exAdminState.passages ≠ [] ∧
    postState (seedData 0 5 exAdminState) exAdminState = exAdminState :=
  ⟨by decide, by decide,
    ((C9_seedData_idempotent exAdminState 0 5 6).2 (by decide)).1 (by decide)⟩
